import Mathlib

/-!
Verification development for the quant-portfolio-simulator repository.

The repository's `src` tree contains the UI components; the trade-log table
and its CSV export (`TradeLog.tsx`) are embedded here directly.  The
backtesting engine itself (strategy engine, risk control layer, portfolio
ledger, metrics calculator, orchestrator) is not part of the available
source files, so it is modelled from the specification; every such
definition carries a doc comment starting with "Modelled from the spec:".

Numeric values are embedded as rationals; exact arithmetic stands in for
JavaScript numbers.  Dates are ISO `yyyy-mm-dd` strings as in the source.
-/

set_option maxHeartbeats 1000000
set_option maxRecDepth 8000

namespace QPS

/-- Trade action, the `'BUY' | 'SELL'` union in the source's `Trade` type. -/
inductive TradeAction
  | BUY
  | SELL
deriving DecidableEq

/-- Rendering of a trade action, as it appears in `trade.action`. -/
def actionToString : TradeAction → String
  | .BUY => "BUY"
  | .SELL => "SELL"

/-- The `Trade` record: id, date, ticker, action, quantity, price,
value and reason, as in the data model. -/
structure Trade where
  id : Nat
  date : String
  ticker : String
  action : TradeAction
  quantity : ℚ
  price : ℚ
  value : ℚ
  reason : String
deriving DecidableEq

/-- The seven CSV-visible fields of a `Trade` (everything except `id`). -/
structure TradeFields where
  date : String
  ticker : String
  action : TradeAction
  quantity : ℚ
  price : ℚ
  value : ℚ
  reason : String
deriving DecidableEq

/-- Project a `Trade` to its seven CSV-visible fields. -/
def Trade.fields (t : Trade) : TradeFields :=
  ⟨t.date, t.ticker, t.action, t.quantity, t.price, t.value, t.reason⟩

/-! Date handling: `TradeLog.tsx` sorts by `new Date(s).getTime()`.  For an
ISO `yyyy-mm-dd` string this is the UTC epoch-millisecond value, embedded
below via the standard civil-calendar day count. -/

/-- Decimal digits to a natural number. -/
def digitsToNat (l : List Char) : Nat :=
  l.foldl (fun a c => a * 10 + (c.toNat - 48)) 0

/-- Split a character list on the dash character. -/
def splitDash : List Char → List (List Char)
  | [] => [[]]
  | '-' :: rest => [] :: splitDash rest
  | c :: rest =>
    match splitDash rest with
    | [] => [[c]]
    | l :: ls => (c :: l) :: ls

/-- Days from 1970-01-01 for a civil date (valid for years after 1970,
which covers the app's date range whose minimum is 2020-01-01). -/
def daysFromCivil (y m d : Nat) : Int :=
  let yy : Int := if m ≤ 2 then (y : Int) - 1 else (y : Int)
  let era : Int := yy / 400
  let yoe : Int := yy - era * 400
  let mp : Int := ((m : Int) + 9) % 12
  let doy : Int := (153 * mp + 2) / 5 + (d : Int) - 1
  let doe : Int := yoe * 365 + yoe / 4 - yoe / 100 + doy
  era * 146097 + doe - 719468

/-- Embedding of `new Date(s).getTime()` for ISO date strings. -/
def dateTime (s : String) : Int :=
  match splitDash s.toList with
  | [y, m, d] => daysFromCivil (digitsToNat y) (digitsToNat m) (digitsToNat d) * 86400000
  | _ => 0

/-- Embedding of `localeCompare` for plain ASCII tickers: lexicographic
comparison returning a sign value. -/
def strCompare (a b : String) : Int :=
  if a < b then -1 else if b < a then 1 else 0

/-- The `FilterType` union of `TradeLog.tsx`. -/
inductive FilterType
  | all
  | buy
  | sell
deriving DecidableEq

/-- The `SortField` union of `TradeLog.tsx`. -/
inductive SortField
  | date
  | ticker
  | value
deriving DecidableEq

/-- The `SortDirection` union of `TradeLog.tsx`. -/
inductive SortDirection
  | asc
  | desc
deriving DecidableEq

/-- The action filter `trade.action.toLowerCase() === filter`. -/
def actionMatches (f : FilterType) (a : TradeAction) : Bool :=
  match f, a with
  | .buy, .BUY => true
  | .sell, .SELL => true
  | _, _ => false

/-- Case-insensitive substring test, embedding
`hay.toLowerCase().includes(needle.toLowerCase())`. -/
def strIncludes (hay needle : String) : Bool :=
  (hay.toList.map Char.toLower).tails.any
    (fun t => (needle.toList.map Char.toLower).isPrefixOf t)

/-- The numeric comparison computed by the sort comparator of
`filteredAndSortedTrades` for a given sort field. -/
def tradeComp (sf : SortField) (a b : Trade) : ℚ :=
  match sf with
  | .date => ((dateTime a.date - dateTime b.date : Int) : ℚ)
  | .ticker => ((strCompare a.ticker b.ticker : Int) : ℚ)
  | .value => a.value - b.value

/-- The comparator passed to `Array.prototype.sort`, reduced to the
"a not after b" boolean a stable sort consumes (ascending negates nothing,
descending negates the comparison). -/
def tradeLe (sf : SortField) (sd : SortDirection) (a b : Trade) : Bool :=
  let c := tradeComp sf a b
  let c' := match sd with | .asc => c | .desc => -c
  decide (c' ≤ 0)

/-- Stable insertion of an element: it lands before the first element it
compares less-or-equal to, after every earlier element it ties with. -/
def insertLe {α : Type} (le : α → α → Bool) (a : α) : List α → List α
  | [] => [a]
  | b :: l => if le a b then a :: b :: l else b :: insertLe le a l

/-- Stable sort by a boolean comparison, processing the list left to
right; ties keep their original order. -/
def sortLe {α : Type} (le : α → α → Bool) : List α → List α
  | [] => []
  | a :: l => insertLe le a (sortLe le l)

/-- Embedding of `Array.prototype.sort` with the component's comparator:
a stable sort by the comparator's sign (ECMAScript sort is stable). -/
def jsSortTrades (sf : SortField) (sd : SortDirection) (l : List Trade) : List Trade :=
  sortLe (tradeLe sf sd) l

/-- Embedding of the `filteredAndSortedTrades` memo of `TradeLog.tsx`.
The first component is the displayed list.  The second component models
the caller's `trades` array after the computation ran: `Array.filter`
allocates a fresh array but `Array.sort` mutates its receiver in place,
so when both filter steps are skipped (`filter === 'all'` and an empty
ticker search) the sorted array and the caller's array are one object. -/
def filteredAndSortedTrades (trades : List Trade) (f : FilterType)
    (searchTicker : String) (sf : SortField) (sd : SortDirection) :
    List Trade × List Trade :=
  let fa :=
    if f ≠ .all then (trades.filter (fun t => actionMatches f t.action), false)
    else (trades, true)
  let fa2 :=
    if searchTicker ≠ "" then
      (fa.1.filter (fun t => strIncludes t.ticker searchTicker), false)
    else fa
  let sorted := jsSortTrades sf sd fa2.1
  (sorted, if fa2.2 then sorted else trades)

/-- CSV quoting of the reason column: `"${trade.reason}"`. -/
def quoteField (r : String) : String := "\"" ++ r ++ "\""

/-- One CSV data row of `handleExportCSV`; `render` stands for the
JavaScript number-to-string conversion applied to the numeric fields. -/
def tradeRow (render : ℚ → String) (t : Trade) : String :=
  String.intercalate ","
    [t.date, t.ticker, actionToString t.action, render t.quantity,
     render t.price, render t.value, quoteField t.reason]

/-- The header row `headers.join(',')` of `handleExportCSV`. -/
def csvHeaderRow : String :=
  String.intercalate "," ["Date", "Ticker", "Action", "Quantity", "Price", "Value", "Reason"]

/-- Embedding of `handleExportCSV`: the CSV content built from the header
row and one row per entry of `filteredAndSortedTrades`, joined by
newlines. -/
def handleExportCSV (render : ℚ → String) (f : FilterType)
    (searchTicker : String) (sf : SortField) (sd : SortDirection)
    (trades : List Trade) : String :=
  String.intercalate "\n"
    (csvHeaderRow ::
      (filteredAndSortedTrades trades f searchTicker sf sd).1.map (tradeRow render))

/-! CSV re-parsing.  The repository ships no CSV reader, so the re-parser
of the round-trip property is modelled from the spec. -/

/-- Parser modes for one CSV record. -/
inductive CsvMode
  | start
  | raw
  | quoted
  | postQuote
deriving DecidableEq

/-- Modelled from the spec: the record parser of "exporting then
re-parsing a trade log".  RFC-4180-style: a field is unquoted (then free
of commas and quotes) or double-quoted with a doubled quote as escape;
`cur` holds the current field reversed, `fs` the finished fields
reversed; a malformed record yields `none`. -/
def parseLineAux : List Char → CsvMode → List Char → List (List Char) → Option (List (List Char))
  | [], m, cur, fs =>
    if m = .quoted then none else some ((cur.reverse :: fs).reverse)
  | c :: rest, m, cur, fs =>
    match m with
    | .start =>
      if c = ',' then parseLineAux rest .start [] (cur.reverse :: fs)
      else if c = '"' then parseLineAux rest .quoted [] fs
      else parseLineAux rest .raw (c :: cur) fs
    | .raw =>
      if c = ',' then parseLineAux rest .start [] (cur.reverse :: fs)
      else if c = '"' then none
      else parseLineAux rest .raw (c :: cur) fs
    | .quoted =>
      if c = '"' then parseLineAux rest .postQuote cur fs
      else parseLineAux rest .quoted (c :: cur) fs
    | .postQuote =>
      if c = ',' then parseLineAux rest .start [] (cur.reverse :: fs)
      else if c = '"' then parseLineAux rest .quoted ('"' :: cur) fs
      else none

/-- Split a character list at newline characters (record separation of
the exported CSV, whose rows are joined with a newline). -/
def splitNl : List Char → List (List Char)
  | [] => [[]]
  | c :: rest =>
    if c = '\n' then [] :: splitNl rest
    else
      match splitNl rest with
      | [] => [[c]]
      | l :: ls => (c :: l) :: ls

/-- Parse one CSV record into its fields. -/
def parseLineFields (l : List Char) : Option (List String) :=
  (parseLineAux l .start [] []).map (List.map String.mk)

/-- Modelled from the spec: parse a whole CSV text into records. -/
def csvParse (s : String) : Option (List (List String)) :=
  (splitNl s.toList).mapM parseLineFields

/-- Parse a trade action back from its CSV text. -/
def parseAction (s : String) : Option TradeAction :=
  if s = "BUY" then some .BUY else if s = "SELL" then some .SELL else none

/-- Modelled from the spec: rebuild the seven fields of one trade from a
parsed CSV record; `prs` inverts the numeric rendering. -/
def parseTradeRec (prs : String → Option ℚ) : List String → Option TradeFields
  | [d, tk, a, q, p, v, r] => do
      let a' ← parseAction a
      let q' ← prs q
      let p' ← prs p
      let v' ← prs v
      pure ⟨d, tk, a', q', p', v', r⟩
  | _ => none

/-- Modelled from the spec: re-parse an exported trade-log CSV, checking
the header row and rebuilding every trade's seven fields. -/
def parseTradeLog (prs : String → Option ℚ) (s : String) : Option (List TradeFields) := do
  let recs ← csvParse s
  match recs with
  | hdr :: rows =>
    if hdr = ["Date", "Ticker", "Action", "Quantity", "Price", "Value", "Reason"] then
      rows.mapM (parseTradeRec prs)
    else none
  | [] => none

/-- Concrete numeric rendering used to instantiate witnesses: decimal
digits for nonnegative integral rationals. -/
def renderNum (q : ℚ) : String :=
  if q.den = 1 ∧ 0 ≤ q.num then String.mk (Nat.toDigits 10 q.num.toNat) else "NaN"

/-- Concrete numeric parsing inverting `renderNum` on its digit output. -/
def prsNum (s : String) : Option ℚ :=
  if s ≠ "" ∧ s.toList.all (fun c => c.isDigit) then
    some ((digitsToNat s.toList : ℕ) : ℚ)
  else none

/-! The backtesting engine.  None of its code is under `src`, so every
definition below is modelled from the specification. -/

/-- Modelled from the spec: the RiskControls values — positive percentage
thresholds for max drawdown, volatility cap and stop loss. -/
structure RiskControls where
  maxDrawdown : ℚ
  volatilityCap : ℚ
  stopLoss : ℚ
deriving DecidableEq

/-- Modelled from the spec: an order proposed by a strategy or emitted by
the risk layer (intent, not execution). -/
structure Order where
  ticker : String
  action : TradeAction
  qty : ℚ
  reason : String
deriving DecidableEq

/-- Modelled from the spec: the PortfolioState record — cash, the
ticker-to-quantity holdings map, the running peak value and the halted
flag. -/
structure PortfolioState where
  cash : ℚ
  holdings : List (String × ℚ)
  peakValue : ℚ
  halted : Bool
deriving DecidableEq

/-- Modelled from the spec: a ChartPoint, one (date, total value) entry
per trading day. -/
structure ChartPoint where
  date : String
  value : ℚ
deriving DecidableEq

/-- Quantity held for a ticker (0 when absent). -/
def getQty (hs : List (String × ℚ)) (tk : String) : ℚ :=
  match hs.find? (fun p => p.1 == tk) with
  | some p => p.2
  | none => 0

/-- Overwrite (or append) the quantity held for a ticker. -/
def setQty (hs : List (String × ℚ)) (tk : String) (q : ℚ) : List (String × ℚ) :=
  if hs.any (fun p => p.1 == tk) then
    hs.map (fun p => if p.1 == tk then (tk, q) else p)
  else hs ++ [(tk, q)]

/-- Add to the quantity held for a ticker. -/
def addQty (hs : List (String × ℚ)) (tk : String) (dq : ℚ) : List (String × ℚ) :=
  setQty hs tk (getQty hs tk + dq)

/-- Mark-to-market value of the holdings at given closing prices. -/
def holdingsValue (hs : List (String × ℚ)) (price : String → ℚ) : ℚ :=
  (hs.map (fun p => p.2 * price p.1)).sum

/-- Modelled from the spec: total portfolio value — cash plus the marked
value of every holding. -/
def totalValue (st : PortfolioState) (price : String → ℚ) : ℚ :=
  st.cash + holdingsValue st.holdings price

/-- Modelled from the spec: SELL orders liquidating every held position,
with the given rationale. -/
def liquidateAll (hs : List (String × ℚ)) (reason : String) : List Order :=
  hs.filterMap (fun p => if 0 < p.2 then some ⟨p.1, .SELL, p.2, reason⟩ else none)

/-- Modelled from the spec: the stop-loss trigger,
totalValue ≤ initialCapital × (1 − stopLossPct/100). -/
def stopCond (total initCap : ℚ) (rc : RiskControls) : Prop :=
  total ≤ initCap * (1 - rc.stopLoss / 100)

instance (total initCap : ℚ) (rc : RiskControls) : Decidable (stopCond total initCap rc) := by
  unfold stopCond
  exact inferInstance

/-- Modelled from the spec: the max-drawdown trigger,
(peakValue − totalValue) / peakValue ≥ maxDrawdownPct/100. -/
def ddCond (st : PortfolioState) (total : ℚ) (rc : RiskControls) : Prop :=
  (st.peakValue - total) / st.peakValue ≥ rc.maxDrawdown / 100

instance (st : PortfolioState) (total : ℚ) (rc : RiskControls) : Decidable (ddCond st total rc) := by
  unfold ddCond
  exact inferInstance

/-- Daily simple returns of a value series, value[t]/value[t−1] − 1. -/
def dailyReturnsQ (vals : List ℚ) : List ℚ :=
  List.zipWith (fun prev cur => cur / prev - 1) vals vals.tail

/-- Arithmetic mean (0 on the empty list by rational division). -/
def meanQ (xs : List ℚ) : ℚ := xs.sum / xs.length

/-- Population variance (0 on the empty list by rational division). -/
def popVarQ (xs : List ℚ) : ℚ :=
  ((xs.map (fun x => (x - meanQ xs) ^ 2)).sum) / xs.length

/-- Modelled from the spec: trailing realized variance of the value
series over a 10-day window (the window length is an implementation
parameter the spec leaves open). -/
def trailingVar (chart : List ChartPoint) : ℚ :=
  popVarQ (dailyReturnsQ (((chart.map (fun p => p.value)).reverse.take 11).reverse))

/-- Modelled from the spec: the volatility-cap trigger — trailing
annualized realized volatility above volatilityCapPct/100, expressed on
squares: variance × 252 > (cap/100)², which for nonnegative sides is
std-dev × sqrt 252 > cap/100. -/
def volCond (chart : List ChartPoint) (rc : RiskControls) : Prop :=
  trailingVar chart * 252 > (rc.volatilityCap / 100) ^ 2

instance (chart : List ChartPoint) (rc : RiskControls) : Decidable (volCond chart rc) := by
  unfold volCond
  exact inferInstance

/-- Modelled from the spec: the volatility-cap damping — halve the size
of a BUY order, leave a SELL order untouched (the damping factor is an
implementation parameter; the spec suggests halving). -/
def dampOrder (o : Order) : Order :=
  match o.action with
  | .BUY => { o with qty := o.qty / 2 }
  | .SELL => o

/-- Modelled from the spec: the Risk Control Layer, a pure transform of
the proposed orders returning the final orders and the updated halted
flag.  Rules are evaluated first-match-wins: stop-loss (liquidate, set
halted), then the halted gate (only SELL orders pass for the rest of the
run), then max drawdown (liquidate, do not halt), then the volatility
cap (damp BUY sizes). -/
def riskApply (proposed : List Order) (st : PortfolioState) (total : ℚ)
    (chart : List ChartPoint) (rc : RiskControls) (initCap : ℚ) :
    List Order × Bool :=
  if stopCond total initCap rc then
    (liquidateAll st.holdings "stop-loss", true)
  else if st.halted then
    (proposed.filter (fun o => o.action == .SELL), st.halted)
  else if ddCond st total rc then
    (liquidateAll st.holdings "drawdown-limit", st.halted)
  else if volCond chart rc then
    (proposed.map dampOrder, st.halted)
  else (proposed, st.halted)

/-- Modelled from the spec: the Trade appended for an executed order —
ids are assigned monotonically from the log length, the executing price
is the same-day closing price, and value = quantity × price. -/
def mkTrade (n : Nat) (date : String) (o : Order) (px : ℚ) : Trade :=
  ⟨n, date, o.ticker, o.action, o.qty, px, o.qty * px, o.reason⟩

/-- Modelled from the spec: apply one final order to the ledger.  A BUY
whose value exceeds the available cash and a SELL whose quantity exceeds
the held shares are rejected as no-ops and not logged; an order with a
nonpositive quantity is likewise not executed, since a Trade's quantity
is positive by the data model. -/
def execOrder (price : String → ℚ) (date : String)
    (sl : PortfolioState × List Trade) (o : Order) : PortfolioState × List Trade :=
  let st := sl.1
  let log := sl.2
  if o.qty ≤ 0 then sl else
  match o.action with
  | .BUY =>
    let cost := o.qty * price o.ticker
    if st.cash < cost then sl
    else ({ st with
              cash := st.cash - cost
              holdings := addQty st.holdings o.ticker o.qty },
          log ++ [mkTrade log.length date o (price o.ticker)])
  | .SELL =>
    if getQty st.holdings o.ticker < o.qty then sl
    else ({ st with
              cash := st.cash + o.qty * price o.ticker
              holdings := addQty st.holdings o.ticker (-o.qty) },
          log ++ [mkTrade log.length date o (price o.ticker)])

/-- Modelled from the spec: apply a day's final orders in sequence. -/
def applyOrders (price : String → ℚ) (date : String)
    (sl : PortfolioState × List Trade) (orders : List Order) :
    PortfolioState × List Trade :=
  orders.foldl (execOrder price date) sl

/-- Modelled from the spec: the evolving run state — portfolio, trade
log and ChartPoint series. -/
structure EngineState where
  port : PortfolioState
  log : List Trade
  chart : List ChartPoint

/-- A strategy as the spec's decide operation: from the visible run
state and today's date to proposed orders (pure, intent only).  Keeping
it an arbitrary function quantifies the theorems over every strategy. -/
def StrategyFun : Type := EngineState → String → List Order

/-- Modelled from the spec: one RUNNING iteration of the orchestrator —
Strategy Engine → Risk Control Layer → Portfolio Ledger →
mark-to-market, producing the day's ChartPoint and updating the peak. -/
def simStep (strat : StrategyFun) (rc : RiskControls) (initCap : ℚ)
    (prices : String → String → ℚ) (es : EngineState) (day : String) : EngineState :=
  let price := prices day
  let total := totalValue es.port price
  let proposed := strat es day
  let ra := riskApply proposed es.port total es.chart rc initCap
  let st1 := { es.port with halted := ra.2 }
  let sl := applyOrders price day (st1, es.log) ra.1
  let total2 := totalValue sl.1 price
  let st3 := { sl.1 with peakValue := max sl.1.peakValue total2 }
  ⟨st3, sl.2, es.chart ++ [⟨day, total2⟩]⟩

/-- Modelled from the spec: the initial run state from the initial
capital — all cash, no holdings, peak at the initial capital, not
halted. -/
def initES (initCap : ℚ) : EngineState := ⟨⟨initCap, [], initCap, false⟩, [], []⟩

/-- Modelled from the spec: the day-by-day loop over the aligned trading
days. -/
def runDays (strat : StrategyFun) (rc : RiskControls) (initCap : ℚ)
    (prices : String → String → ℚ) (days : List String) : EngineState :=
  days.foldl (simStep strat rc initCap prices) (initES initCap)

/-! Metrics Calculator, modelled from the spec. -/

/-- Modelled from the spec: maxDrawdown — the largest fractional decline
from the running peak over the value series. -/
def maxDrawdownQ (vals : List ℚ) : ℚ :=
  (vals.foldl (fun acc v =>
    let peak := max acc.1 v
    (peak, max acc.2 ((peak - v) / peak))) ((0 : ℚ), (0 : ℚ))).2

/-- Modelled from the spec: winRate — SELL trades profitable against the
weighted average cost basis of the shares they close, over all closing
trades, 0 when there are none.  The fold state carries the per-ticker
quantity and cost-basis maps plus the win and closing counters. -/
def winRateQ (trades : List Trade) : ℚ :=
  let r := trades.foldl (fun acc t =>
    match t.action with
    | .BUY =>
      (addQty acc.1 t.ticker t.quantity, addQty acc.2.1 t.ticker t.value,
       acc.2.2.1, acc.2.2.2)
    | .SELL =>
      let q := getQty acc.1 t.ticker
      let c := getQty acc.2.1 t.ticker
      let avg := if 0 < q then c / q else 0
      (addQty acc.1 t.ticker (-t.quantity),
       addQty acc.2.1 t.ticker (-(avg * t.quantity)),
       acc.2.2.1 + (if avg < t.price then 1 else 0), acc.2.2.2 + 1))
    (([] : List (String × ℚ)), ([] : List (String × ℚ)), (0 : ℕ), (0 : ℕ))
  if r.2.2.2 = 0 then 0 else (r.2.2.1 : ℚ) / (r.2.2.2 : ℚ)

/-- Covariance of two return series (0 on empty input). -/
def covQ (xs ys : List ℚ) : ℚ :=
  ((List.zipWith (fun x y => (x - meanQ xs) * (y - meanQ ys)) xs ys).sum) / xs.length

/-- Modelled from the spec: beta = cov/var with the zero-variance
guard. -/
def betaQ (rets bench : List ℚ) : ℚ :=
  if popVarQ bench = 0 then 0 else covQ rets bench / popVarQ bench

/-- Modelled from the spec: alpha = mean − beta × mean(benchmark),
annualized by 252. -/
def alphaQ (rets bench : List ℚ) : ℚ :=
  (meanQ rets - betaQ rets bench * meanQ bench) * 252

/-- Modelled from the spec: annualized volatility —
std-dev(dailyReturns) × sqrt 252, and 0 when the series has fewer than
2 points. -/
noncomputable def volatility (chart : List ChartPoint) : ℝ :=
  if chart.length < 2 then 0
  else Real.sqrt (popVarQ (dailyReturnsQ (chart.map (fun p => p.value)))) * Real.sqrt 252

/-- Modelled from the spec: the risk-adjusted return with the explicit
zero-guard — mean(dailyReturns) × 252 / volatility when the volatility
is positive, else 0 (not an error). -/
noncomputable def sharpe (chart : List ChartPoint) : ℝ :=
  if 0 < volatility chart then
    ((meanQ (dailyReturnsQ (chart.map (fun p => p.value))) : ℝ) * 252) / volatility chart
  else 0

/-- Modelled from the spec: the PerformanceMetrics record. -/
structure PerformanceMetrics where
  totalReturn : ℚ
  sharpeVal : ℝ
  maxDrawdownVal : ℚ
  volatilityVal : ℝ
  winRate : ℚ
  alpha : ℚ
  beta : ℚ

/-- Modelled from the spec: the Metrics Calculator, a pure function of
the completed ChartPoint series, the trade log and the benchmark return
series. -/
noncomputable def computeMetrics (chart : List ChartPoint) (trades : List Trade)
    (initCap : ℚ) (bench : List ℚ) : PerformanceMetrics :=
  let vals := chart.map (fun p => p.value)
  let rets := dailyReturnsQ vals
  ⟨(vals.getLast?.getD initCap) / initCap - 1,
   sharpe chart, maxDrawdownQ vals, volatility chart, winRateQ trades,
   alphaQ rets bench, betaQ rets bench⟩

/-- Modelled from the spec: benchmark value series — an equal-weight
buy-and-hold of the same universe, each asset normalized to its price on
the first aligned day. -/
def benchValues (tickers : List String) (prices : String → String → ℚ)
    (days : List String) : List ℚ :=
  match days with
  | [] => []
  | d0 :: _ => days.map (fun d => (tickers.map (fun tk => prices d tk / prices d0 tk)).sum)

/-- Modelled from the spec: benchmark daily returns. -/
def benchReturns (tickers : List String) (prices : String → String → ℚ)
    (days : List String) : List ℚ :=
  dailyReturnsQ (benchValues tickers prices days)

/-- Modelled from the spec: the SimulationConfig passed by value into a
run. -/
structure SimulationConfig where
  tickers : List String
  startDate : String
  endDate : String
  initialCapital : ℚ
  strat : StrategyFun
  riskControls : RiskControls

/-- Modelled from the spec: the run entry point — the orchestrator loop
followed by one metrics computation over the completed series. -/
noncomputable def runSim (cfg : SimulationConfig) (prices : String → String → ℚ)
    (days : List String) : EngineState × PerformanceMetrics :=
  let es := runDays cfg.strat cfg.riskControls cfg.initialCapital prices days
  (es, computeMetrics es.chart es.log cfg.initialCapital (benchReturns cfg.tickers prices days))

/-! Helper lemmas about the stable sort. -/

theorem insertLe_perm {α : Type} (le : α → α → Bool) (a : α) (l : List α) :
    (insertLe le a l).Perm (a :: l) := by
  induction l with
  | nil => simp [insertLe]
  | cons b t ih =>
    by_cases h : le a b = true
    · simp [insertLe, h]
    · rw [insertLe, if_neg h]
      exact (ih.cons b).trans (List.Perm.swap a b t)

theorem sortLe_perm {α : Type} (le : α → α → Bool) (l : List α) :
    (sortLe le l).Perm l := by
  induction l with
  | nil => simp [sortLe]
  | cons a t ih => exact (insertLe_perm le a (sortLe le t)).trans (ih.cons a)

theorem jsSortTrades_perm (sf : SortField) (sd : SortDirection) (l : List Trade) :
    (jsSortTrades sf sd l).Perm l := sortLe_perm _ l

/-! Helper lemmas about the CSV parser: consuming an unquoted field, a
quoted field and a whole record of the exported shape. -/

theorem parseLineAux_eof (m : CsvMode) (h : ¬m = .quoted) (cur : List Char)
    (fs : List (List Char)) :
    parseLineAux [] m cur fs = some ((cur.reverse :: fs).reverse) := by
  simp [parseLineAux, h]

theorem parseLineAux_raw (f : List Char) (hf : ∀ c ∈ f, ¬c = ',' ∧ ¬c = '"')
    (rest cur : List Char) (fs : List (List Char)) :
    parseLineAux (f ++ rest) .raw cur fs = parseLineAux rest .raw (f.reverse ++ cur) fs := by
  induction f generalizing cur with
  | nil => simp
  | cons c t ih =>
    obtain ⟨h1, h2⟩ := hf c (List.mem_cons_self c t)
    rw [List.cons_append, parseLineAux]
    simp only [if_neg h1, if_neg h2]
    rw [ih (fun x hx => hf x (List.mem_cons_of_mem c hx))]
    simp [List.append_assoc]

theorem parseLineAux_field (f : List Char) (hf : ∀ c ∈ f, ¬c = ',' ∧ ¬c = '"')
    (rest : List Char) (fs : List (List Char)) :
    parseLineAux (f ++ ',' :: rest) .start [] fs = parseLineAux rest .start [] (f :: fs) := by
  cases f with
  | nil => simp [parseLineAux]
  | cons c t =>
    obtain ⟨h1, h2⟩ := hf c (List.mem_cons_self c t)
    rw [List.cons_append, parseLineAux]
    simp only [if_neg h1, if_neg h2]
    rw [parseLineAux_raw t (fun x hx => hf x (List.mem_cons_of_mem c hx))]
    rw [parseLineAux]
    simp

theorem parseLineAux_quoted (r : List Char) (hr : ∀ c ∈ r, ¬c = '"')
    (rest cur : List Char) (fs : List (List Char)) :
    parseLineAux (r ++ rest) .quoted cur fs = parseLineAux rest .quoted (r.reverse ++ cur) fs := by
  induction r generalizing cur with
  | nil => simp
  | cons c t ih =>
    have h2 := hr c (List.mem_cons_self c t)
    rw [List.cons_append, parseLineAux]
    simp only [if_neg h2]
    rw [ih (fun x hx => hr x (List.mem_cons_of_mem c hx))]
    simp [List.append_assoc]

theorem parseLineAux_reason (r : List Char) (hr : ∀ c ∈ r, ¬c = '"')
    (fs : List (List Char)) :
    parseLineAux ('"' :: (r ++ ['"'])) .start [] fs = some ((r :: fs).reverse) := by
  rw [parseLineAux]
  have h1 : ¬(('"' : Char) = ',') := by decide
  simp only [if_neg h1, if_pos rfl]
  rw [parseLineAux_quoted r hr]
  rw [parseLineAux]
  simp [parseLineAux]

/-- Consume a record of the exported shape: unquoted fields each followed
by a comma, then the quoted reason. -/
theorem parseLineAux_record (fls : List (List Char))
    (hfls : ∀ f ∈ fls, ∀ c ∈ f, ¬c = ',' ∧ ¬c = '"')
    (r : List Char) (hr : ∀ c ∈ r, ¬c = '"') (fs : List (List Char)) :
    parseLineAux ((fls.map (fun f => f ++ [','])).flatten ++ '"' :: (r ++ ['"'])) .start [] fs
      = some ((r :: (fls.reverse ++ fs)).reverse) := by
  induction fls generalizing fs with
  | nil => simpa using parseLineAux_reason r hr fs
  | cons f t ih =>
    have hf := hfls f (List.mem_cons_self f t)
    have ht : ∀ g ∈ t, ∀ c ∈ g, ¬c = ',' ∧ ¬c = '"' :=
      fun g hg => hfls g (List.mem_cons_of_mem f hg)
    rw [List.map_cons, List.flatten_cons, List.append_assoc, List.append_assoc]
    rw [show (([','] : List Char) ++ ((t.map (fun f => f ++ [','])).flatten ++ '"' :: (r ++ ['"'])))
          = ',' :: ((t.map (fun f => f ++ [','])).flatten ++ '"' :: (r ++ ['"'])) from rfl]
    rw [parseLineAux_field f hf]
    rw [ih ht]
    simp [List.append_assoc]

/-! Helper lemmas about string joining and newline splitting. -/

theorem intercalate_go_data (s : String) (l : List String) : ∀ acc : String,
    (String.intercalate.go acc s l).data
      = acc.data ++ (l.map (fun b => s.data ++ b.data)).flatten := by
  induction l with
  | nil => intro acc; simp [String.intercalate.go]
  | cons a as ih =>
    intro acc
    rw [String.intercalate.go, ih]
    simp [String.data_append, List.append_assoc]

theorem intercalate_data (s a : String) (as : List String) :
    (String.intercalate s (a :: as)).data
      = a.data ++ (as.map (fun b => s.data ++ b.data)).flatten :=
  intercalate_go_data s as a

theorem string_eta (s : String) : String.mk s.data = s := rfl

theorem splitNl_no_nl (a : List Char) (ha : ¬ '\n' ∈ a) : splitNl a = [a] := by
  induction a with
  | nil => rfl
  | cons c t ih =>
    have hc : ¬c = '\n' := fun h => ha (h ▸ List.mem_cons_self c t)
    rw [splitNl, if_neg hc, ih (fun h => ha (List.mem_cons_of_mem c h))]

theorem splitNl_append (a : List Char) (ha : ¬ '\n' ∈ a) (b : List Char) :
    splitNl (a ++ '\n' :: b) = a :: splitNl b := by
  induction a with
  | nil => simp [splitNl]
  | cons c t ih =>
    have hc : ¬c = '\n' := fun h => ha (h ▸ List.mem_cons_self c t)
    rw [List.cons_append, splitNl, if_neg hc, ih (fun h => ha (List.mem_cons_of_mem c h))]

theorem splitNl_joined (rows : List (List Char)) (h : ∀ r ∈ rows, ¬ '\n' ∈ r) :
    ∀ a : List Char, ¬ '\n' ∈ a →
      splitNl (a ++ (rows.map (fun b => '\n' :: b)).flatten) = a :: rows := by
  induction rows with
  | nil => intro a ha; simp [splitNl_no_nl a ha]
  | cons r t ih =>
    intro a ha
    have hr := h r (List.mem_cons_self r t)
    have ht : ∀ g ∈ t, ¬ '\n' ∈ g := fun g hg => h g (List.mem_cons_of_mem r hg)
    rw [List.map_cons, List.flatten_cons, List.cons_append]
    rw [splitNl_append a ha, ih ht r hr]

/-! Well-formedness of CSV fields: an unquoted field must avoid commas,
quotes and newlines; the quoted reason must avoid quotes and newlines
(commas are allowed — that is the point of the quoting). -/

/-- A string safe as an unquoted CSV field. -/
def okRawStr (s : String) : Bool :=
  s.data.all (fun c => !(c == ',') && !(c == '"') && !(c == '\n'))

/-- A string safe inside the quoted reason field. -/
def okQuotedStr (s : String) : Bool :=
  s.data.all (fun c => !(c == '"') && !(c == '\n'))

theorem okRawStr_spec {s : String} (h : okRawStr s = true) :
    (∀ c ∈ s.data, ¬c = ',' ∧ ¬c = '"') ∧ ¬ '\n' ∈ s.data := by
  rw [okRawStr, List.all_eq_true] at h
  constructor
  · intro c hc
    have := h c hc
    simp only [Bool.and_eq_true, Bool.not_eq_true', beq_eq_false_iff_ne, ne_eq] at this
    exact ⟨this.1.1, this.1.2⟩
  · intro hm
    have := h '\n' hm
    simp at this

theorem okQuotedStr_spec {s : String} (h : okQuotedStr s = true) :
    (∀ c ∈ s.data, ¬c = '"') ∧ ¬ '\n' ∈ s.data := by
  rw [okQuotedStr, List.all_eq_true] at h
  constructor
  · intro c hc
    have := h c hc
    simp only [Bool.and_eq_true, Bool.not_eq_true', beq_eq_false_iff_ne, ne_eq] at this
    exact this.1
  · intro hm
    have := h '\n' hm
    simp at this

theorem actionToString_ok (a : TradeAction) :
    (∀ c ∈ (actionToString a).data, ¬c = ',' ∧ ¬c = '"') ∧
      ¬ '\n' ∈ (actionToString a).data := by
  cases a <;> exact ⟨by decide, by decide⟩

theorem parseAction_actionToString (a : TradeAction) :
    parseAction (actionToString a) = some a := by
  cases a <;> rfl

/-- Decomposition of one exported row into the record shape the parser
lemmas consume. -/
theorem tradeRow_data (render : ℚ → String) (t : Trade) :
    (tradeRow render t).data
      = (([t.date.data, t.ticker.data, (actionToString t.action).data,
           (render t.quantity).data, (render t.price).data, (render t.value).data].map
           (fun f => f ++ [','])).flatten) ++ '"' :: (t.reason.data ++ ['"']) := by
  rw [tradeRow, intercalate_data]
  simp [quoteField, String.data_append, List.append_assoc]

theorem tradeRow_no_nl (render : ℚ → String) (t : Trade)
    (hd : okRawStr t.date = true) (htk : okRawStr t.ticker = true)
    (hq : okRawStr (render t.quantity) = true) (hp : okRawStr (render t.price) = true)
    (hv : okRawStr (render t.value) = true) (hr : okQuotedStr t.reason = true) :
    ¬ '\n' ∈ (tradeRow render t).data := by
  rw [tradeRow_data]
  simp +decide only [List.map_cons, List.map_nil, List.flatten_cons, List.flatten_nil,
    List.append_assoc, List.append_nil, List.mem_append, List.mem_cons,
    List.not_mem_nil, or_false, false_or, not_or]
  refine ⟨(okRawStr_spec hd).2, (okRawStr_spec htk).2, (actionToString_ok t.action).2,
    (okRawStr_spec hq).2, (okRawStr_spec hp).2, (okRawStr_spec hv).2,
    (okQuotedStr_spec hr).2⟩

theorem tradeRow_parses (render : ℚ → String) (t : Trade)
    (hd : okRawStr t.date = true) (htk : okRawStr t.ticker = true)
    (hq : okRawStr (render t.quantity) = true) (hp : okRawStr (render t.price) = true)
    (hv : okRawStr (render t.value) = true) (hr : okQuotedStr t.reason = true) :
    parseLineFields (tradeRow render t).data
      = some [t.date, t.ticker, actionToString t.action, render t.quantity,
              render t.price, render t.value, t.reason] := by
  rw [parseLineFields, tradeRow_data]
  rw [parseLineAux_record _ ?hfls t.reason.data (okQuotedStr_spec hr).1 []]
  · simp [string_eta]
  case hfls =>
    intro f hf
    simp only [List.mem_cons, List.not_mem_nil, or_false] at hf
    rcases hf with rfl | rfl | rfl | rfl | rfl | rfl
    · exact (okRawStr_spec hd).1
    · exact (okRawStr_spec htk).1
    · exact (actionToString_ok t.action).1
    · exact (okRawStr_spec hq).1
    · exact (okRawStr_spec hp).1
    · exact (okRawStr_spec hv).1

theorem csvHeaderRow_parses :
    parseLineFields csvHeaderRow.data
      = some ["Date", "Ticker", "Action", "Quantity", "Price", "Value", "Reason"] := by
  decide

theorem csvHeaderRow_no_nl : ¬ '\n' ∈ csvHeaderRow.data := by decide

/-- Decomposition of the exported CSV text into header and row data. -/
theorem handleExportCSV_data (render : ℚ → String) (f : FilterType) (s : String)
    (sf : SortField) (sd : SortDirection) (trades : List Trade) :
    (handleExportCSV render f s sf sd trades).data
      = csvHeaderRow.data
        ++ (((filteredAndSortedTrades trades f s sf sd).1.map
              (fun t => (tradeRow render t).data)).map (fun b => '\n' :: b)).flatten := by
  rw [handleExportCSV, intercalate_data]
  simp only [String.data_append, List.map_map]
  rfl

/-- The displayed list, with the filter pipeline written out. -/
theorem view_eq (trades : List Trade) (f : FilterType) (s : String)
    (sf : SortField) (sd : SortDirection) :
    (filteredAndSortedTrades trades f s sf sd).1
      = jsSortTrades sf sd
          (if s ≠ "" then
            (if f ≠ .all then trades.filter (fun t => actionMatches f t.action)
             else trades).filter (fun t => strIncludes t.ticker s)
           else
            (if f ≠ .all then trades.filter (fun t => actionMatches f t.action)
             else trades)) := by
  unfold filteredAndSortedTrades
  by_cases hf : f ≠ FilterType.all <;> by_cases hs : s ≠ "" <;> simp [hf, hs]

/-- Every displayed trade comes from the caller's list. -/
theorem mem_view {trades : List Trade} {f : FilterType} {s : String}
    {sf : SortField} {sd : SortDirection} {t : Trade}
    (ht : t ∈ (filteredAndSortedTrades trades f s sf sd).1) : t ∈ trades := by
  rw [view_eq] at ht
  have h2 := (sortLe_perm _ _).mem_iff.mp ht
  split_ifs at h2 <;>
    first
    | exact h2
    | exact (List.mem_filter.mp h2).1
    | exact (List.mem_filter.mp (List.mem_filter.mp h2).1).1

/-- Option-valued mapM over a mapped list whose entries all succeed. -/
theorem mapM_map_eq_some {α β γ : Type} (g : β → Option γ) (f : α → β) (h : α → γ) :
    ∀ l : List α, (∀ x ∈ l, g (f x) = some (h x)) →
      (l.map f).mapM g = some (l.map h) := by
  intro l
  induction l with
  | nil => intro _; rfl
  | cons a t ih =>
    intro hx
    rw [List.map_cons, List.mapM_cons, hx a (List.mem_cons_self a t),
      ih (fun x m => hx x (List.mem_cons_of_mem a m))]
    rfl

/-- The seven strings of one exported row. -/
def rowStrings (render : ℚ → String) (t : Trade) : List String :=
  [t.date, t.ticker, actionToString t.action, render t.quantity,
   render t.price, render t.value, t.reason]

/-- Hypotheses under which a trade's fields survive the CSV format: the
unquoted fields are free of comma, quote and newline, and the reason is
free of quote and newline. -/
def okTrade (render : ℚ → String) (t : Trade) : Prop :=
  okRawStr t.date = true ∧ okRawStr t.ticker = true ∧
    okRawStr (render t.quantity) = true ∧ okRawStr (render t.price) = true ∧
    okRawStr (render t.value) = true ∧ okQuotedStr t.reason = true

instance (render : ℚ → String) (t : Trade) : Decidable (okTrade render t) := by
  unfold okTrade
  exact inferInstance

theorem parseTradeRec_rowStrings (render : ℚ → String) (prs : String → Option ℚ)
    (t : Trade) (hq : prs (render t.quantity) = some t.quantity)
    (hp : prs (render t.price) = some t.price)
    (hv : prs (render t.value) = some t.value) :
    parseTradeRec prs (rowStrings render t) = some t.fields := by
  rw [rowStrings, parseTradeRec]
  rw [parseAction_actionToString, hq, hp, hv]
  rfl

/-- Parsing the exported CSV recovers one record of seven fields per
displayed trade, in display order. -/
theorem parseTradeLog_export (render : ℚ → String) (prs : String → Option ℚ)
    (f : FilterType) (s : String) (sf : SortField) (sd : SortDirection)
    (trades : List Trade)
    (hok : ∀ t ∈ trades, okTrade render t)
    (hprs : ∀ t ∈ trades, prs (render t.quantity) = some t.quantity ∧
      prs (render t.price) = some t.price ∧ prs (render t.value) = some t.value) :
    parseTradeLog prs (handleExportCSV render f s sf sd trades)
      = some ((filteredAndSortedTrades trades f s sf sd).1.map Trade.fields) := by
  have hokv : ∀ t ∈ (filteredAndSortedTrades trades f s sf sd).1, okTrade render t :=
    fun t ht => hok t (mem_view ht)
  have hrows_nl : ∀ r ∈ ((filteredAndSortedTrades trades f s sf sd).1.map
      (fun t => (tradeRow render t).data)), ¬ '\n' ∈ r := by
    intro r hrr
    obtain ⟨t, ht, rfl⟩ := List.mem_map.mp hrr
    obtain ⟨h1, h2, h3, h4, h5, h6⟩ := hokv t ht
    exact tradeRow_no_nl render t h1 h2 h3 h4 h5 h6
  have hsplit : splitNl (handleExportCSV render f s sf sd trades).data
      = csvHeaderRow.data
          :: (filteredAndSortedTrades trades f s sf sd).1.map
              (fun t => (tradeRow render t).data) := by
    rw [handleExportCSV_data]
    exact splitNl_joined _ hrows_nl _ csvHeaderRow_no_nl
  have hparse : csvParse (handleExportCSV render f s sf sd trades)
      = some (["Date", "Ticker", "Action", "Quantity", "Price", "Value", "Reason"]
          :: (filteredAndSortedTrades trades f s sf sd).1.map (rowStrings render)) := by
    show (splitNl (handleExportCSV render f s sf sd trades).data).mapM parseLineFields = _
    rw [hsplit, List.mapM_cons, csvHeaderRow_parses]
    rw [mapM_map_eq_some parseLineFields (fun t => (tradeRow render t).data)
      (rowStrings render) _ ?rows]
    · rfl
    case rows =>
      intro t ht
      obtain ⟨h1, h2, h3, h4, h5, h6⟩ := hokv t ht
      exact tradeRow_parses render t h1 h2 h3 h4 h5 h6
  rw [parseTradeLog, hparse]
  show ((filteredAndSortedTrades trades f s sf sd).1.map (rowStrings render)).mapM
      (parseTradeRec prs) = _
  apply mapM_map_eq_some
  intro t ht
  obtain ⟨p1, p2, p3⟩ := hprs t (mem_view ht)
  exact parseTradeRec_rowStrings render prs t p1 p2 p3

/-! Helper lemmas about the ledger and the orchestrator loop. -/

theorem execOrder_cash_nonneg (price : String → ℚ) (date : String)
    (sl : PortfolioState × List Trade) (o : Order)
    (hp : ∀ tk, 0 < price tk) (h : 0 ≤ sl.1.cash) :
    0 ≤ (execOrder price date sl o).1.cash := by
  obtain ⟨otk, oact, oqty, orsn⟩ := o
  rw [execOrder]
  by_cases h0 : oqty ≤ 0
  · rw [if_pos h0]; exact h
  · rw [if_neg h0]
    cases oact
    · by_cases hc : sl.1.cash < oqty * price otk
      · rw [if_pos hc]; exact h
      · rw [if_neg hc]
        show 0 ≤ sl.1.cash - oqty * price otk
        exact sub_nonneg.mpr (le_of_not_lt hc)
    · by_cases hs : getQty sl.1.holdings otk < oqty
      · rw [if_pos hs]; exact h
      · rw [if_neg hs]
        show 0 ≤ sl.1.cash + oqty * price otk
        exact add_nonneg h (le_of_lt (mul_pos (lt_of_not_le h0) (hp otk)))

theorem applyOrders_cash_nonneg (price : String → ℚ) (date : String)
    (orders : List Order) :
    ∀ sl : PortfolioState × List Trade, (∀ tk, 0 < price tk) → 0 ≤ sl.1.cash →
      0 ≤ (applyOrders price date sl orders).1.cash := by
  induction orders with
  | nil => intro sl _ h; exact h
  | cons o t ih =>
    intro sl hp h
    rw [applyOrders, List.foldl_cons]
    exact ih (execOrder price date sl o) hp (execOrder_cash_nonneg price date sl o hp h)

theorem simStep_cash_nonneg (strat : StrategyFun) (rc : RiskControls) (initCap : ℚ)
    (prices : String → String → ℚ) (es : EngineState) (day : String)
    (hp : ∀ d tk, 0 < prices d tk) (h : 0 ≤ es.port.cash) :
    0 ≤ (simStep strat rc initCap prices es day).port.cash :=
  applyOrders_cash_nonneg (prices day) day _ _ (hp day) h

theorem runDays_cash_nonneg (strat : StrategyFun) (rc : RiskControls) (initCap : ℚ)
    (prices : String → String → ℚ) (hp : ∀ d tk, 0 < prices d tk)
    (h0 : 0 ≤ initCap) (days : List String) :
    0 ≤ (runDays strat rc initCap prices days).port.cash := by
  suffices h : ∀ es : EngineState, 0 ≤ es.port.cash →
      0 ≤ (days.foldl (simStep strat rc initCap prices) es).port.cash from h _ h0
  induction days with
  | nil => intro es h; exact h
  | cons d t ih =>
    intro es h
    rw [List.foldl_cons]
    exact ih _ (simStep_cash_nonneg strat rc initCap prices es d hp h)

/-- The loop applied to one more day. -/
theorem runDays_snoc (strat : StrategyFun) (rc : RiskControls) (initCap : ℚ)
    (prices : String → String → ℚ) (l : List String) (d : String) :
    runDays strat rc initCap prices (l ++ [d])
      = simStep strat rc initCap prices (runDays strat rc initCap prices l) d := by
  rw [runDays, runDays, List.foldl_append, List.foldl_cons, List.foldl_nil]

/-- One step appends exactly one ChartPoint: the day together with the
updated state's cash plus marked holdings. -/
theorem simStep_chart (strat : StrategyFun) (rc : RiskControls) (initCap : ℚ)
    (prices : String → String → ℚ) (es : EngineState) (day : String) :
    (simStep strat rc initCap prices es day).chart
      = es.chart ++ [⟨day, (simStep strat rc initCap prices es day).port.cash
          + holdingsValue (simStep strat rc initCap prices es day).port.holdings
              (prices day)⟩] := rfl

theorem liquidateAll_sell (hs : List (String × ℚ)) (r : String) :
    ∀ o ∈ liquidateAll hs r, o.action = .SELL := by
  intro o ho
  obtain ⟨p, hp, ho2⟩ := List.mem_filterMap.mp ho
  by_cases h : 0 < p.2
  · rw [if_pos h] at ho2
    rw [← Option.some.inj ho2]
  · rw [if_neg h] at ho2
    exact absurd ho2 (by simp)

theorem riskApply_halted_true (proposed : List Order) (st : PortfolioState)
    (total : ℚ) (chart : List ChartPoint) (rc : RiskControls) (initCap : ℚ)
    (h : st.halted = true) :
    (riskApply proposed st total chart rc initCap).2 = true := by
  rw [riskApply]
  split_ifs <;> simp [h]

theorem riskApply_halted_sell (proposed : List Order) (st : PortfolioState)
    (total : ℚ) (chart : List ChartPoint) (rc : RiskControls) (initCap : ℚ)
    (h : st.halted = true) :
    ∀ o ∈ (riskApply proposed st total chart rc initCap).1, o.action = .SELL := by
  rw [riskApply]
  by_cases h1 : stopCond total initCap rc
  · rw [if_pos h1]
    exact liquidateAll_sell st.holdings "stop-loss"
  · rw [if_neg h1, h, if_pos rfl]
    intro o ho
    simpa using (List.mem_filter.mp ho).2

theorem execOrder_halted (price : String → ℚ) (date : String)
    (sl : PortfolioState × List Trade) (o : Order) :
    (execOrder price date sl o).1.halted = sl.1.halted := by
  obtain ⟨otk, oact, oqty, orsn⟩ := o
  rw [execOrder]
  by_cases h0 : oqty ≤ 0
  · rw [if_pos h0]
  · rw [if_neg h0]
    cases oact
    · by_cases hc : sl.1.cash < oqty * price otk
      · rw [if_pos hc]
      · rw [if_neg hc]
    · by_cases hs : getQty sl.1.holdings otk < oqty
      · rw [if_pos hs]
      · rw [if_neg hs]

theorem applyOrders_halted (price : String → ℚ) (date : String) (orders : List Order) :
    ∀ sl : PortfolioState × List Trade,
      (applyOrders price date sl orders).1.halted = sl.1.halted := by
  induction orders with
  | nil => intro sl; rfl
  | cons o t ih =>
    intro sl
    rw [applyOrders, List.foldl_cons]
    rw [show List.foldl (execOrder price date) (execOrder price date sl o) t
        = applyOrders price date (execOrder price date sl o) t from rfl]
    rw [ih, execOrder_halted]

theorem simStep_port_halted (strat : StrategyFun) (rc : RiskControls) (initCap : ℚ)
    (prices : String → String → ℚ) (es : EngineState) (day : String) :
    (simStep strat rc initCap prices es day).port.halted
      = (riskApply (strat es day) es.port (totalValue es.port (prices day))
          es.chart rc initCap).2 :=
  applyOrders_halted (prices day) day _ _

theorem simStep_halted_mono (strat : StrategyFun) (rc : RiskControls) (initCap : ℚ)
    (prices : String → String → ℚ) (es : EngineState) (day : String)
    (h : es.port.halted = true) :
    (simStep strat rc initCap prices es day).port.halted = true := by
  rw [simStep_port_halted]
  exact riskApply_halted_true _ _ _ _ _ _ h

theorem execOrder_log_cases (price : String → ℚ) (date : String)
    (sl : PortfolioState × List Trade) (o : Order) :
    (execOrder price date sl o).2 = sl.2 ∨
      (execOrder price date sl o).2 = sl.2 ++ [mkTrade sl.2.length date o (price o.ticker)] := by
  obtain ⟨otk, oact, oqty, orsn⟩ := o
  rw [execOrder]
  by_cases h0 : oqty ≤ 0
  · rw [if_pos h0]; left; rfl
  · rw [if_neg h0]
    cases oact
    · by_cases hc : sl.1.cash < oqty * price otk
      · rw [if_pos hc]; left; rfl
      · rw [if_neg hc]; right; rfl
    · by_cases hs : getQty sl.1.holdings otk < oqty
      · rw [if_pos hs]; left; rfl
      · rw [if_neg hs]; right; rfl

/-- The trade value equals quantity times the executing price: true of
every Trade the ledger appends, by construction of `mkTrade`. -/
theorem mkTrade_action (n : Nat) (date : String) (o : Order) (px : ℚ) :
    (mkTrade n date o px).action = o.action := rfl

theorem applyOrders_log (price : String → ℚ) (date : String) (orders : List Order) :
    ∀ sl : PortfolioState × List Trade,
      ∃ Δ, (applyOrders price date sl orders).2 = sl.2 ++ Δ ∧
        ∀ t ∈ Δ, ∃ o ∈ orders, t.action = o.action := by
  induction orders with
  | nil => intro sl; exact ⟨[], by rw [applyOrders, List.foldl_nil, List.append_nil], by simp⟩
  | cons o t ih =>
    intro sl
    obtain ⟨Δ, hΔ, hmem⟩ := ih (execOrder price date sl o)
    have hstep : applyOrders price date sl (o :: t)
        = applyOrders price date (execOrder price date sl o) t := by
      rw [applyOrders, applyOrders, List.foldl_cons]
    rcases execOrder_log_cases price date sl o with hc | hc
    · refine ⟨Δ, ?_, ?_⟩
      · rw [hstep, hΔ, hc]
      · intro x hx
        obtain ⟨oo, hoo, hact⟩ := hmem x hx
        exact ⟨oo, List.mem_cons_of_mem o hoo, hact⟩
    · refine ⟨mkTrade sl.2.length date o (price o.ticker) :: Δ, ?_, ?_⟩
      · rw [hstep, hΔ, hc]
        simp
      · intro x hx
        rcases List.mem_cons.mp hx with rfl | hx2
        · exact ⟨o, List.mem_cons_self o t, rfl⟩
        · obtain ⟨oo, hoo, hact⟩ := hmem x hx2
          exact ⟨oo, List.mem_cons_of_mem o hoo, hact⟩

theorem simStep_log (strat : StrategyFun) (rc : RiskControls) (initCap : ℚ)
    (prices : String → String → ℚ) (es : EngineState) (day : String) :
    ∃ Δ, (simStep strat rc initCap prices es day).log = es.log ++ Δ ∧
      ∀ t ∈ Δ, ∃ o ∈ (riskApply (strat es day) es.port (totalValue es.port (prices day))
          es.chart rc initCap).1, t.action = o.action :=
  applyOrders_log (prices day) day _ _

theorem simStep_halted_sell_log (strat : StrategyFun) (rc : RiskControls) (initCap : ℚ)
    (prices : String → String → ℚ) (es : EngineState) (day : String)
    (h : es.port.halted = true) :
    ∃ Δ, (simStep strat rc initCap prices es day).log = es.log ++ Δ ∧
      ∀ t ∈ Δ, t.action = .SELL := by
  obtain ⟨Δ, hΔ, hm⟩ := simStep_log strat rc initCap prices es day
  refine ⟨Δ, hΔ, fun t ht => ?_⟩
  obtain ⟨o, ho, hact⟩ := hm t ht
  rw [hact]
  exact riskApply_halted_sell _ _ _ _ _ _ h o ho

theorem runDays_halted_mono (strat : StrategyFun) (rc : RiskControls) (initCap : ℚ)
    (prices : String → String → ℚ) (days : List String) (i j : ℕ) (hij : i ≤ j)
    (h : (runDays strat rc initCap prices (days.take i)).port.halted = true) :
    (runDays strat rc initCap prices (days.take j)).port.halted = true := by
  induction j, hij using Nat.le_induction with
  | base => exact h
  | succ n hn ih =>
    by_cases hlen : n < days.length
    · have htake : days.take (n + 1) = days.take n ++ [days[n]] := by
        rw [← List.take_concat_get days n hlen, List.concat_eq_append]
      rw [htake, runDays_snoc]
      exact simStep_halted_mono _ _ _ _ _ _ ih
    · have htake : days.take (n + 1) = days.take n := by
        rw [List.take_of_length_le (Nat.le_succ_of_le (le_of_not_lt hlen)),
          List.take_of_length_le (le_of_not_lt hlen)]
      rw [htake]
      exact ih

theorem runDays_halted_no_buy (strat : StrategyFun) (rc : RiskControls) (initCap : ℚ)
    (prices : String → String → ℚ) (days : List String) (i j : ℕ) (hij : i ≤ j)
    (h : (runDays strat rc initCap prices (days.take i)).port.halted = true) :
    ∃ Δ, (runDays strat rc initCap prices (days.take j)).log
        = (runDays strat rc initCap prices (days.take i)).log ++ Δ ∧
      ∀ t ∈ Δ, t.action = .SELL := by
  induction j, hij using Nat.le_induction with
  | base => exact ⟨[], (List.append_nil _).symm, by simp⟩
  | succ n hn ih =>
    obtain ⟨Δ, hΔ, hm⟩ := ih
    by_cases hlen : n < days.length
    · have htake : days.take (n + 1) = days.take n ++ [days[n]] := by
        rw [← List.take_concat_get days n hlen, List.concat_eq_append]
      have hhn : (runDays strat rc initCap prices (days.take n)).port.halted = true :=
        runDays_halted_mono strat rc initCap prices days i n hn h
      obtain ⟨Δ2, hΔ2, hm2⟩ :=
        simStep_halted_sell_log strat rc initCap prices
          (runDays strat rc initCap prices (days.take n)) days[n] hhn
      refine ⟨Δ ++ Δ2, ?_, ?_⟩
      · rw [htake, runDays_snoc, hΔ2, hΔ, List.append_assoc]
      · intro t ht
        rcases List.mem_append.mp ht with ht2 | ht2
        · exact hm t ht2
        · exact hm2 t ht2
    · have htake : days.take (n + 1) = days.take n := by
        rw [List.take_of_length_le (Nat.le_succ_of_le (le_of_not_lt hlen)),
          List.take_of_length_le (le_of_not_lt hlen)]
      rw [htake]
      exact ⟨Δ, hΔ, hm⟩

/-- The exported CSV splits at newlines into the header line followed by
one line per displayed trade. -/
theorem export_lines (render : ℚ → String) (f : FilterType) (s : String)
    (sf : SortField) (sd : SortDirection) (trades : List Trade)
    (hok : ∀ t ∈ trades, okTrade render t) :
    splitNl (handleExportCSV render f s sf sd trades).data
      = csvHeaderRow.data
          :: (filteredAndSortedTrades trades f s sf sd).1.map
              (fun t => (tradeRow render t).data) := by
  have hrows_nl : ∀ r ∈ ((filteredAndSortedTrades trades f s sf sd).1.map
      (fun t => (tradeRow render t).data)), ¬ '\n' ∈ r := by
    intro r hrr
    obtain ⟨t, ht, rfl⟩ := List.mem_map.mp hrr
    obtain ⟨h1, h2, h3, h4, h5, h6⟩ := hok t (mem_view ht)
    exact tradeRow_no_nl render t h1 h2 h3 h4 h5 h6
  rw [handleExportCSV_data]
  exact splitNl_joined _ hrows_nl _ csvHeaderRow_no_nl

/-- With the default filter state the displayed list is the stable sort
of the whole log. -/
theorem view_default (trades : List Trade) (sf : SortField) (sd : SortDirection) :
    (filteredAndSortedTrades trades .all "" sf sd).1 = jsSortTrades sf sd trades := by
  rw [view_eq]
  simp

/-! Helper lemmas for the Metrics Calculator zero-guards. -/

theorem zipWith_mem {α β γ : Type} (f : α → β → γ) :
    ∀ (l₁ : List α) (l₂ : List β), ∀ x ∈ List.zipWith f l₁ l₂,
      ∃ a ∈ l₁, ∃ b ∈ l₂, x = f a b := by
  intro l₁
  induction l₁ with
  | nil => intro l₂ x hx; simp at hx
  | cons a t ih =>
    intro l₂ x hx
    cases l₂ with
    | nil => simp at hx
    | cons b t₂ =>
      rw [List.zipWith_cons_cons] at hx
      rcases List.mem_cons.mp hx with rfl | hx2
      · exact ⟨a, List.mem_cons_self a t, b, List.mem_cons_self b t₂, rfl⟩
      · obtain ⟨a2, ha2, b2, hb2, rfl⟩ := ih t₂ x hx2
        exact ⟨a2, List.mem_cons_of_mem a ha2, b2, List.mem_cons_of_mem b hb2, rfl⟩

theorem meanQ_const (xs : List ℚ) (c : ℚ) (h : ∀ x ∈ xs, x = c) (hne : xs ≠ []) :
    meanQ xs = c := by
  have hl : (xs.length : ℚ) ≠ 0 :=
    Nat.cast_ne_zero.mpr (fun h0 => hne (List.length_eq_zero.mp h0))
  rw [meanQ, List.sum_eq_card_nsmul xs c h, nsmul_eq_mul]
  exact mul_div_cancel_left₀ c hl

theorem popVarQ_const (xs : List ℚ) (c : ℚ) (h : ∀ x ∈ xs, x = c) :
    popVarQ xs = 0 := by
  rcases hxs : xs with _ | ⟨a, t⟩
  · simp [popVarQ, meanQ]
  · rw [popVarQ]
    have hm : meanQ (a :: t) = c := meanQ_const _ c (hxs ▸ h) (by simp)
    have hz : ∀ y ∈ (a :: t).map (fun x => (x - meanQ (a :: t)) ^ 2), y = 0 := by
      intro y hy
      obtain ⟨x, hx, rfl⟩ := List.mem_map.mp hy
      rw [hm, h x (hxs ▸ hx)]
      simp
    rw [List.sum_eq_zero hz, zero_div]

theorem dailyReturnsQ_const (vals : List ℚ) (v : ℚ) (h : ∀ x ∈ vals, x = v) :
    ∀ r ∈ dailyReturnsQ vals, r = v / v - 1 := by
  intro r hr
  obtain ⟨a, ha, b, hb, rfl⟩ := zipWith_mem _ vals vals.tail r hr
  rw [h a ha, h b (List.mem_of_mem_tail hb)]

/-! Concrete instances used by witnesses and counterexamples. -/

/-- A BUY trade dated 2023-01-01. -/
def cxT1 : Trade := ⟨0, "2023-01-01", "AAPL", .BUY, 1, 2, 2, "rebalance"⟩

/-- A SELL trade dated 2023-01-02 whose reason contains a comma. -/
def cxT2 : Trade := ⟨1, "2023-01-02", "MSFT", .SELL, 1, 3, 3, "stop, loss"⟩

/-- A BUY trade whose reason contains a double quote. -/
def cxQuote : Trade := ⟨0, "2023-01-01", "AAPL", .BUY, 1, 2, 2, "say \"hi\""⟩

/-- A lone SELL trade. -/
def cxSell : Trade := ⟨0, "2023-01-01", "AAPL", .SELL, 1, 2, 2, "liquidation"⟩

/-- The app's default risk controls: maxDrawdown 20, volatilityCap 25,
stopLoss 15. -/
def cxRc : RiskControls := ⟨20, 25, 15⟩

/-- A state 25% below its 100000 peak — both the stop-loss line (85000
relative to initial capital 100000) and the 20% drawdown line are hit. -/
def cxStopSt : PortfolioState := ⟨0, [("A", 750)], 100000, false⟩

/-- A state 25% below its 200000 peak while still above the stop-loss
line of an initial capital of 100000. -/
def cxDdSt : PortfolioState := ⟨0, [("A", 1000)], 200000, false⟩

/-- A strategy that proposes the same BUY every day. -/
def cxBuyStrat : StrategyFun := fun _ _ => [⟨"A", .BUY, 10, "rebalance"⟩]

/-- Prices collapsing from 10 to 5 after the first day. -/
def cxPrices : String → String → ℚ := fun d _ => if d = "d1" then 10 else 5

/-- A value series volatile enough to trip the volatility cap. -/
def cxVolChart : List ChartPoint := [⟨"d1", 100⟩, ⟨"d2", 50⟩, ⟨"d3", 100⟩]

/-- A calm flat state for the volatility-cap witness. -/
def cxCalmSt : PortfolioState := ⟨100, [], 100, false⟩

/-- A mixed BUY and SELL proposal list. -/
def cxProposed : List Order := [⟨"A", .BUY, 8, "r"⟩, ⟨"B", .SELL, 3, "r2"⟩]

/-- A concrete simulation configuration. -/
def cxCfg : SimulationConfig := ⟨["A"], "d1", "d3", 100, cxBuyStrat, cxRc⟩

/-! The claims. -/

/-- C1: for every simulated trading day, for every strategy and every
setting of the risk controls, the portfolio state after that day
satisfies cash ≥ 0, and cash plus the sum over held tickers of share
quantity times that day's closing price equals exactly the total value
recorded in that day's ChartPoint (the last chart entry after that day).
The hypotheses are the engine's input contract: nonnegative initial
capital and strictly positive closing prices. -/
theorem value_conservation_invariant (strat : StrategyFun) (rc : RiskControls)
    (initCap : ℚ) (prices : String → String → ℚ) (days : List String)
    (hc : 0 ≤ initCap) (hp : ∀ d tk, 0 < prices d tk)
    (i : ℕ) (hi : i < days.length) :
    0 ≤ (runDays strat rc initCap prices (days.take (i + 1))).port.cash ∧
      (runDays strat rc initCap prices (days.take (i + 1))).chart.getLast?
        = some ⟨days[i],
            (runDays strat rc initCap prices (days.take (i + 1))).port.cash
              + holdingsValue
                  (runDays strat rc initCap prices (days.take (i + 1))).port.holdings
                  (prices days[i])⟩ := by
  constructor
  · exact runDays_cash_nonneg strat rc initCap prices hp hc _
  · have htake : days.take (i + 1) = days.take i ++ [days[i]] := by
      rw [← List.take_concat_get days i hi, List.concat_eq_append]
    rw [htake, runDays_snoc, simStep_chart, List.getLast?_concat]

/-- Witness for C1 at a concrete two-day run with the default risk
controls, a daily BUY strategy and constant prices. -/
theorem value_conservation_invariant_witness :
    0 ≤ (runDays cxBuyStrat cxRc 100 (fun _ _ => 5) (["d1", "d2"].take (1 + 1))).port.cash ∧
      (runDays cxBuyStrat cxRc 100 (fun _ _ => 5) (["d1", "d2"].take (1 + 1))).chart.getLast?
        = some ⟨["d1", "d2"][1],
            (runDays cxBuyStrat cxRc 100 (fun _ _ => 5) (["d1", "d2"].take (1 + 1))).port.cash
              + holdingsValue
                  (runDays cxBuyStrat cxRc 100 (fun _ _ => 5)
                    (["d1", "d2"].take (1 + 1))).port.holdings
                  ((fun _ _ => (5 : ℚ)) (["d1", "d2"][1]))⟩ :=
  value_conservation_invariant cxBuyStrat cxRc 100 (fun _ _ => 5) ["d1", "d2"]
    (by decide) (fun _ _ => by show (0 : ℚ) < 5; decide) 1 (by decide)

/-- C4: once the halted flag is true after some prefix of the run, every
trade logged on any later day is a SELL — no BUY is ever appended for the
remainder of the run. -/
theorem stop_loss_monotonicity (strat : StrategyFun) (rc : RiskControls)
    (initCap : ℚ) (prices : String → String → ℚ) (days : List String)
    (i j : ℕ) (hij : i ≤ j)
    (hh : (runDays strat rc initCap prices (days.take i)).port.halted = true) :
    ∀ t ∈ (runDays strat rc initCap prices (days.take j)).log.drop
        (runDays strat rc initCap prices (days.take i)).log.length,
      ¬t.action = .BUY := by
  obtain ⟨Δ, hΔ, hm⟩ := runDays_halted_no_buy strat rc initCap prices days i j hij hh
  rw [hΔ, List.drop_left]
  intro t ht
  rw [hm t ht]
  decide

/-- Witness for C4: a run that buys into a collapse, trips the stop loss
on day 2 (total 50 against a stop line of 85), and stays halted. -/
theorem stop_loss_monotonicity_witness :
    (runDays cxBuyStrat cxRc 100 cxPrices (["d1", "d2", "d3"].take 2)).port.halted = true ∧
      ∀ t ∈ (runDays cxBuyStrat cxRc 100 cxPrices (["d1", "d2", "d3"].take 3)).log.drop
          (runDays cxBuyStrat cxRc 100 cxPrices (["d1", "d2", "d3"].take 2)).log.length,
        ¬t.action = .BUY :=
  ⟨by with_unfolding_all decide,
   stop_loss_monotonicity cxBuyStrat cxRc 100 cxPrices ["d1", "d2", "d3"] 2 3
     (by decide) (by with_unfolding_all decide)⟩

/-- C5 counterexample: at a state 25% below a peak equal to the initial
capital, with the default controls (maxDrawdown 20, stopLoss 15), the
drawdown condition holds, yet the layer — stop-loss rule first — emits
the liquidation with reason "stop-loss" and sets halted, contradicting
the claim that the orders carry reason "drawdown-limit" and that halted
is not set. -/
theorem drawdown_sets_halted_cx :
    ddCond cxStopSt 75000 cxRc ∧ cxStopSt.halted = false ∧
      riskApply [] cxStopSt 75000 [] cxRc 100000
        = ([⟨"A", .SELL, 750, "stop-loss"⟩], true) :=
  ⟨by with_unfolding_all decide, rfl, by with_unfolding_all decide⟩

/-- C5 (amended): whenever the drawdown condition holds, the stop-loss
condition does not hold and the portfolio is not already halted, the Risk
Control Layer replaces the proposed orders with a full liquidation with
reason "drawdown-limit" and leaves the halted flag unchanged. -/
theorem drawdown_liquidation (proposed : List Order) (st : PortfolioState)
    (total : ℚ) (chart : List ChartPoint) (rc : RiskControls) (initCap : ℚ)
    (hdd : ddCond st total rc) (hstop : ¬stopCond total initCap rc)
    (hh : st.halted = false) :
    riskApply proposed st total chart rc initCap
      = (liquidateAll st.holdings "drawdown-limit", st.halted) := by
  rw [riskApply, if_neg hstop, hh, if_neg (by decide), if_pos hdd]

/-- Witness for C5: a portfolio 25% below a peak of 200000 but above the
stop-loss line: the whole holding is sold with reason "drawdown-limit"
and halted stays false. -/
theorem drawdown_liquidation_witness :
    riskApply [] cxDdSt 150000 [] cxRc 100000
        = (liquidateAll cxDdSt.holdings "drawdown-limit", cxDdSt.halted) ∧
      liquidateAll cxDdSt.holdings "drawdown-limit"
        = [⟨"A", .SELL, 1000, "drawdown-limit"⟩] ∧ cxDdSt.halted = false :=
  ⟨drawdown_liquidation [] cxDdSt 150000 [] cxRc 100000
      (by with_unfolding_all decide) (by with_unfolding_all decide) rfl,
   by with_unfolding_all decide, rfl⟩

/-- C7: the Portfolio Ledger rejects as a strict no-op — state unchanged,
nothing logged — every BUY whose value exceeds the available cash and
every SELL whose quantity exceeds the held shares. -/
theorem ledger_rejects_infeasible (price : String → ℚ) (date : String)
    (sl : PortfolioState × List Trade) (o : Order)
    (h : (o.action = .BUY ∧ sl.1.cash < o.qty * price o.ticker) ∨
         (o.action = .SELL ∧ getQty sl.1.holdings o.ticker < o.qty)) :
    execOrder price date sl o = sl := by
  rcases h with ⟨ha, hc⟩ | ⟨ha, hs⟩ <;>
    (rw [execOrder]; simp only [ha]; split_ifs <;> rfl)

/-- Witness for C7: a BUY worth 1000 against a cash balance of 5 is a
no-op and logs nothing. -/
theorem ledger_rejects_infeasible_witness :
    execOrder (fun _ => 100) "d1" (⟨5, [], 5, false⟩, []) ⟨"A", .BUY, 10, "r"⟩
      = (⟨5, [], 5, false⟩, []) :=
  ledger_rejects_infeasible (fun _ => 100) "d1" (⟨5, [], 5, false⟩, []) ⟨"A", .BUY, 10, "r"⟩
    (Or.inl ⟨rfl, by with_unfolding_all decide⟩)

/-- C2 counterexample: with the action filter set to 'buy', exporting a
trade log holding one SELL trade yields a CSV whose only line is the
header — no data row is emitted for the trade, so the export does not
emit one row per Trade in the trade log. -/
theorem csv_export_row_per_trade_cx :
    splitNl (handleExportCSV renderNum .buy "" .date .desc [cxSell]).data
      = [csvHeaderRow.data] ∧ ([cxSell] : List Trade).length = 1 :=
  ⟨by decide, rfl⟩

/-- C2 (amended): the export emits the header line followed by exactly
one row per entry of the filtered-and-sorted view, each row carrying the
seven columns in the order date, ticker, action, quantity, price, value,
reason with the reason quoted (its parse is the single reason field);
when the filter is 'all' and the ticker search is empty, the view is a
permutation of the whole trade log, so there is one row per Trade. -/
theorem csv_export_structure (render : ℚ → String) (f : FilterType) (s : String)
    (sf : SortField) (sd : SortDirection) (trades : List Trade)
    (hok : ∀ t ∈ trades, okTrade render t) :
    splitNl (handleExportCSV render f s sf sd trades).data
      = csvHeaderRow.data
          :: (filteredAndSortedTrades trades f s sf sd).1.map
              (fun t => (tradeRow render t).data) ∧
    (f = .all → s = "" →
      ((filteredAndSortedTrades trades f s sf sd).1.map Trade.fields).Perm
        (trades.map Trade.fields)) ∧
    ∀ t ∈ trades, parseLineFields (tradeRow render t).data
      = some [t.date, t.ticker, actionToString t.action, render t.quantity,
              render t.price, render t.value, t.reason] := by
  refine ⟨export_lines render f s sf sd trades hok, ?_, ?_⟩
  · intro hf hs
    subst hf
    subst hs
    rw [view_default]
    exact (jsSortTrades_perm sf sd trades).map Trade.fields
  · intro t ht
    obtain ⟨h1, h2, h3, h4, h5, h6⟩ := hok t ht
    exact tradeRow_parses render t h1 h2 h3 h4 h5 h6

/-- Witness for C2 at a one-trade log in the default view. -/
theorem csv_export_structure_witness :
    splitNl (handleExportCSV renderNum .all "" .date .desc [cxT1]).data
      = csvHeaderRow.data
          :: (filteredAndSortedTrades [cxT1] .all "" .date .desc).1.map
              (fun t => (tradeRow renderNum t).data) ∧
    (FilterType.all = .all → "" = "" →
      ((filteredAndSortedTrades [cxT1] .all "" .date .desc).1.map Trade.fields).Perm
        ([cxT1].map Trade.fields)) ∧
    ∀ t ∈ [cxT1], parseLineFields (tradeRow renderNum t).data
      = some [t.date, t.ticker, actionToString t.action, renderNum t.quantity,
              renderNum t.price, renderNum t.value, t.reason] :=
  csv_export_structure renderNum .all "" .date .desc [cxT1] (by decide)

/-- C3 counterexample: exporting the two-trade log [cxT1, cxT2] (dates
ascending, default view sorting by date descending) and re-parsing does
not return the same trade log — the rows come back in reversed order;
and a reason containing a double quote breaks the re-parse outright,
because the export wraps the reason in quotes without escaping. -/
theorem csv_round_trip_cx :
    parseTradeLog prsNum (handleExportCSV renderNum .all "" .date .desc [cxT1, cxT2])
        ≠ some ([cxT1, cxT2].map Trade.fields) ∧
      parseTradeLog prsNum (handleExportCSV renderNum .all "" .date .desc [cxQuote]) = none :=
  ⟨by decide, by decide⟩

/-- C3 (amended): with the default view (filter 'all', empty search) and
fields free of quote and newline characters (commas allowed in the
reason), exporting and re-parsing recovers exactly the displayed rows:
every trade's seven fields are preserved — including a reason with a
comma — and the result is a permutation of the original log's field
records, in the view's sort order rather than the log's order. -/
theorem csv_round_trip_sorted (render : ℚ → String) (prs : String → Option ℚ)
    (sf : SortField) (sd : SortDirection) (trades : List Trade)
    (hok : ∀ t ∈ trades, okTrade render t)
    (hprs : ∀ t ∈ trades, prs (render t.quantity) = some t.quantity ∧
      prs (render t.price) = some t.price ∧ prs (render t.value) = some t.value) :
    parseTradeLog prs (handleExportCSV render .all "" sf sd trades)
        = some ((jsSortTrades sf sd trades).map Trade.fields) ∧
      ((jsSortTrades sf sd trades).map Trade.fields).Perm (trades.map Trade.fields) := by
  constructor
  · rw [parseTradeLog_export render prs .all "" sf sd trades hok hprs, view_default]
  · exact (jsSortTrades_perm sf sd trades).map Trade.fields

/-- Witness for C3 at the two-trade log whose second trade's reason
contains a comma. -/
theorem csv_round_trip_sorted_witness :
    parseTradeLog prsNum (handleExportCSV renderNum .all "" .date .desc [cxT1, cxT2])
        = some ((jsSortTrades .date .desc [cxT1, cxT2]).map Trade.fields) ∧
      ((jsSortTrades .date .desc [cxT1, cxT2]).map Trade.fields).Perm
        ([cxT1, cxT2].map Trade.fields) :=
  csv_round_trip_sorted renderNum prsNum .date .desc [cxT1, cxT2] (by decide) (by decide)

/-- C6: the Metrics Calculator never divides by zero — a series with
fewer than 2 points has volatility 0; whenever the volatility is 0 the
sharpe value is the guarded 0; and a flat (zero-variance) value series
yields sharpe 0 rather than a division error. -/
theorem metrics_zero_guards (cps : List ChartPoint) :
    (cps.length < 2 → volatility cps = 0) ∧
    (volatility cps = 0 → sharpe cps = 0) ∧
    (∀ v : ℚ, (∀ p ∈ cps, p.value = v) → sharpe cps = 0) := by
  have part1 : cps.length < 2 → volatility cps = 0 := by
    intro h
    simp [volatility, h]
  have part2 : volatility cps = 0 → sharpe cps = 0 := by
    intro h
    simp [sharpe, h]
  refine ⟨part1, part2, ?_⟩
  intro v hv
  apply part2
  rw [volatility]
  split_ifs with hlen
  · rfl
  · have hvar : popVarQ (dailyReturnsQ (cps.map (fun p => p.value))) = 0 := by
      apply popVarQ_const _ (v / v - 1)
      apply dailyReturnsQ_const _ v
      intro x hx
      obtain ⟨p, hp, rfl⟩ := List.mem_map.mp hx
      exact hv p hp
    rw [hvar]
    simp

/-- Witness for C6: a single-point series has volatility 0, and a flat
three-point series has sharpe 0. -/
theorem metrics_zero_guards_witness :
    volatility [⟨"d", 1⟩] = 0 ∧ sharpe [⟨"d", 5⟩, ⟨"d", 5⟩, ⟨"d", 5⟩] = 0 :=
  ⟨(metrics_zero_guards [⟨"d", 1⟩]).1 (by decide),
   (metrics_zero_guards [⟨"d", 5⟩, ⟨"d", 5⟩, ⟨"d", 5⟩]).2.2 5 (by decide)⟩

/-- C8: the run is a pure function of the SimulationConfig, the price
data and the aligned trading days — two runs on equal inputs produce
identical trade logs and identical performance metrics; no clock or
other ambient state enters the model. -/
theorem run_deterministic (cfg₁ cfg₂ : SimulationConfig)
    (p₁ p₂ : String → String → ℚ) (d₁ d₂ : List String)
    (hc : cfg₁ = cfg₂) (hp : p₁ = p₂) (hd : d₁ = d₂) :
    (runSim cfg₁ p₁ d₁).1.log = (runSim cfg₂ p₂ d₂).1.log ∧
      (runSim cfg₁ p₁ d₁).2 = (runSim cfg₂ p₂ d₂).2 := by
  subst hc
  subst hp
  subst hd
  exact ⟨rfl, rfl⟩

/-- Witness for C8 at a concrete configuration and price table. -/
theorem run_deterministic_witness :
    (runSim cxCfg cxPrices ["d1", "d2"]).1.log = (runSim cxCfg cxPrices ["d1", "d2"]).1.log ∧
      (runSim cxCfg cxPrices ["d1", "d2"]).2 = (runSim cxCfg cxPrices ["d1", "d2"]).2 :=
  run_deterministic cxCfg cxCfg cxPrices cxPrices ["d1", "d2"] ["d1", "d2"] rfl rfl rfl

/-- C9: when only the volatility-cap rule fires, the Risk Control Layer
maps the proposed orders through the damping alone: BUY quantities are
halved, every SELL order passes through unchanged, and no liquidation is
produced — the output is exactly the damped proposal list. -/
theorem volatility_cap_scales_buys (proposed : List Order) (st : PortfolioState)
    (total : ℚ) (chart : List ChartPoint) (rc : RiskControls) (initCap : ℚ)
    (hstop : ¬stopCond total initCap rc) (hh : st.halted = false)
    (hdd : ¬ddCond st total rc) (hvol : volCond chart rc) :
    riskApply proposed st total chart rc initCap = (proposed.map dampOrder, st.halted) ∧
    (∀ o ∈ proposed, o.action = .SELL → dampOrder o = o) ∧
    (∀ o ∈ proposed, o.action = .BUY → dampOrder o = { o with qty := o.qty / 2 }) := by
  refine ⟨?_, ?_, ?_⟩
  · rw [riskApply, if_neg hstop, hh, if_neg (by decide), if_neg hdd, if_pos hvol]
  · intro o _ ha
    simp [dampOrder, ha]
  · intro o _ ha
    simp [dampOrder, ha]

/-- Witness for C9: a calm flat portfolio with a volatile recent value
series — the BUY of 8 becomes a BUY of 4, the SELL of 3 is untouched. -/
theorem volatility_cap_scales_buys_witness :
    (riskApply cxProposed cxCalmSt 100 cxVolChart cxRc 100
        = (cxProposed.map dampOrder, cxCalmSt.halted) ∧
      (∀ o ∈ cxProposed, o.action = .SELL → dampOrder o = o) ∧
      (∀ o ∈ cxProposed, o.action = .BUY → dampOrder o = { o with qty := o.qty / 2 })) ∧
    cxProposed.map dampOrder = [⟨"A", .BUY, 4, "r"⟩, ⟨"B", .SELL, 3, "r2"⟩] :=
  ⟨volatility_cap_scales_buys cxProposed cxCalmSt 100 cxVolChart cxRc 100
      (by with_unfolding_all decide) rfl (by with_unfolding_all decide)
      (by with_unfolding_all decide),
   by with_unfolding_all decide⟩

/-- C10: the trade-log view calls sort on the array produced by the
filter steps; when the action filter is 'all' and the ticker search is
empty both filter steps are skipped, so the sorted array aliases the
caller's trades array and the caller's array ends up reordered in place
(second component of the model); with any active filter a fresh array is
sorted and the caller's array is left unchanged. -/
theorem trade_log_sort_aliasing (trades : List Trade) (f : FilterType) (s : String)
    (sf : SortField) (sd : SortDirection) :
    (f = .all → s = "" →
      (filteredAndSortedTrades trades f s sf sd).2 = jsSortTrades sf sd trades) ∧
    (¬(f = .all ∧ s = "") → (filteredAndSortedTrades trades f s sf sd).2 = trades) := by
  constructor
  · intro hf hs
    subst hf
    subst hs
    unfold filteredAndSortedTrades
    simp
  · intro hns
    unfold filteredAndSortedTrades
    by_cases hf : f = FilterType.all
    · by_cases hs : s = ""
      · exact absurd ⟨hf, hs⟩ hns
      · simp [hf, hs]
    · by_cases hs : s = ""
      · simp [hf, hs]
      · simp [hf, hs]

/-- Witness for C10: on a log stored in ascending date order, displaying
with the default state leaves the caller's array equal to the
date-descending sort, which differs from the original order. -/
theorem trade_log_sort_aliasing_witness :
    (filteredAndSortedTrades [cxT1, cxT2] .all "" .date .desc).2
        = jsSortTrades .date .desc [cxT1, cxT2] ∧
      jsSortTrades .date .desc [cxT1, cxT2] ≠ [cxT1, cxT2] :=
  ⟨(trade_log_sort_aliasing [cxT1, cxT2] .all "" .date .desc).1 rfl rfl, by decide⟩

end QPS
